import Mathlib

/-!
Shallow embedding of `src/main.rs` of the `binarypkg` tool.

The program shells out to three external tools (`eix`, `qlist`, `qlop`) and
reads files from the filesystem.  We model the environment as a record of
(pure) functions giving, for each invocation, the captured process output
(`success` flag, exit `code`, `stdout`, `stderr`) and, for each path, the
file's readable contents (`Except.error` models a fatal I/O failure such as
open failure or a non-EOF read error; a short `Except.ok` contents models a
clean end-of-file before 4 bytes).

Rust `panic!`/`unwrap` aborts are modelled as `Except.error msg`; a run that
returns `Except.ok lines` prints exactly `lines` and exits with status 0.
Rayon's order-preserving parallel `filter`/`filter_map`/`any` combinators are
modelled by sequential order-preserving recursions (`parFilter`,
`parFilterMap`, `parAny`); `any` short-circuits at the first `true` like the
parallel any-of reduction.  Rust's `sort_by_key` / `par_sort` are stable
sorts; a stable sort's output is uniquely determined by the key order and
the input order, so they are modelled by `List.insertionSort`, which is
stable and structurally recursive (hence kernel-computable).
-/

/-- translation of the captured output of one external process invocation
(`std::process::Output`): `success` is `status.success()`, `code` is
`status.code()`. -/
structure ToolOut where
  success : Bool
  code : Option Int
  stdout : String
  stderr : String

/-- translation of the ambient environment: the outputs of the three external
tools per argument, and the filesystem contents per path (bytes as `Nat`s;
`Except.error` is a fatal I/O failure, distinct from a short file). -/
structure Env where
  eixOut : Option String → ToolOut
  qlistOut : String → ToolOut
  qlopOut : String → ToolOut
  readFile : String → Except String (List Nat)

/-- translation of `const ELF_HEADER: [u8; 4] = [0x7f, b'E', b'L', b'F']`. -/
def ELF_HEADER : List Nat := [0x7f, 0x45, 0x4c, 0x46]

/-- lexicographic comparison of character lists by code point, the order in
which Rust's `Ord for String` sorts (UTF-8 byte order coincides with code
point order). -/
def charListLe : List Char → List Char → Bool
  | [], _ => true
  | _ :: _, [] => false
  | a :: as, b :: bs =>
    if a.toNat < b.toNat then true
    else if b.toNat < a.toNat then false
    else charListLe as bs

/-- translation of the string order used by `list.par_sort()`. -/
def strLe (a b : String) : Bool := charListLe a.data b.data

/-- translation of the CLI argument structure `Arg` (clap flags `-f`, `-t`,
`-r` and the optional positional atom). -/
structure Arg where
  file : Bool
  time : Bool
  rebuild : Bool
  atom : Option String

/-- helper for `split_terminator`: split a character list at every newline
(`cur` is the reversed current segment). -/
def splitLinesAux : List Char → List Char → List (List Char)
  | [], cur => [cur.reverse]
  | c :: rest, cur =>
    if c = '\n' then cur.reverse :: splitLinesAux rest []
    else splitLinesAux rest (c :: cur)

/-- translation of Rust `str::split_terminator('\n')` on character lists:
split at newlines, dropping the trailing empty segment produced when the
string ends in a newline (or is empty). -/
def splitTerminatorAux (s : List Char) : List (List Char) :=
  let parts := splitLinesAux s []
  if parts.getLast? = some [] then parts.dropLast else parts

/-- translation of `output.split_terminator('\n').map(to_owned).collect()`. -/
def splitTerminator (s : String) : List String :=
  (splitTerminatorAux s.data).map (fun l => String.mk l)

/-- helper for `split_whitespace`: split a character list into maximal
whitespace-free tokens (`cur` is the reversed current token). -/
def splitWsAux : List Char → List Char → List (List Char)
  | [], cur => if cur.isEmpty then [] else [cur.reverse]
  | c :: rest, cur =>
    if c.isWhitespace then
      if cur.isEmpty then splitWsAux rest []
      else cur.reverse :: splitWsAux rest []
    else splitWsAux rest (c :: cur)

/-- translation of Rust `str::split_whitespace()`: the whitespace-delimited
tokens, with no empty tokens. -/
def splitWhitespace (s : String) : List String :=
  (splitWsAux s.data []).map (fun l => String.mk l)

/-- translation of Rust `str::parse::<u64>()`: an optional leading `+`, then
one or more ASCII digits, value fitting in 64 bits; anything else fails. -/
def parseU64 (s : String) : Option Nat :=
  let cs := match s.data with
    | '+' :: rest => rest
    | cs => cs
  if cs.isEmpty then none
  else if cs.all (fun c => c.isDigit) then
    let v := cs.foldl (fun acc c => acc * 10 + (c.toNat - 48)) 0
    if v < 2 ^ 64 then some v else none
  else none

/-- translation of `fn eix(input: Option<String>) -> Vec<String>`: exit code 1
with unsuccessful status yields the empty list, any other unsuccessful status
panics with the captured stdout/stderr, success splits stdout at newline
terminators. -/
def eix (env : Env) (input : Option String) : Except String (List String) :=
  let output := env.eixOut input
  if !output.success then
    if output.code = some 1 then Except.ok []
    else Except.error ("eix failed!, stdout:\n" ++ output.stdout ++
      "\nstderr:\n" ++ output.stderr)
  else Except.ok (splitTerminator output.stdout)

/-- translation of `fn is_elf_file(path: &str) -> bool`: a fatal I/O error
aborts; reading fewer than 4 bytes (unexpected EOF) gives `false`; otherwise
the first 4 bytes are compared with `ELF_HEADER`. -/
def is_elf_file (env : Env) (path : String) : Except String Bool :=
  match env.readFile path with
  | Except.error e =>
    Except.error ("Failed to read file: " ++ path ++ ": " ++ e)
  | Except.ok buf =>
    if buf.length < 4 then Except.ok false
    else Except.ok (decide (buf.take 4 = ELF_HEADER))

/-- translation of `fn qlist(pkg: &str) -> Vec<String>`: any unsuccessful
status panics with the captured stdout/stderr; success splits stdout at
newline terminators. -/
def qlist (env : Env) (pkg : String) : Except String (List String) :=
  let output := env.qlistOut pkg
  if !output.success then
    Except.error ("qlist " ++ pkg ++ " failed!, stdout:\n" ++ output.stdout ++
      "\nstderr:\n" ++ output.stderr)
  else Except.ok (splitTerminator output.stdout)

/-- translation of `fn qlop(pkg: &str) -> u64`: any unsuccessful status
panics; otherwise the second whitespace token of stdout (defaulting to `"0"`)
is parsed as a `u64`, and a parse failure panics. -/
def qlop (env : Env) (pkg : String) : Except String Nat :=
  let output := env.qlopOut pkg
  if !output.success then
    Except.error ("qlop " ++ pkg ++ " failed!, stdout:\n" ++ output.stdout ++
      "\nstderr:\n" ++ output.stderr)
  else
    let num := ((splitWhitespace output.stdout)[1]?).getD "0"
    match parseU64 num with
    | some n => Except.ok n
    | none => Except.error ("invalid digit found in string: " ++ num)

/-- model of rayon's order-preserving parallel `filter` over a fallible
predicate: an element whose test aborts aborts the whole reduction. -/
def parFilter (f : α → Except ε Bool) : List α → Except ε (List α)
  | [] => Except.ok []
  | x :: xs =>
    match f x with
    | Except.error e => Except.error e
    | Except.ok b =>
      match parFilter f xs with
      | Except.error e => Except.error e
      | Except.ok rest => Except.ok (if b then x :: rest else rest)

/-- model of rayon's parallel `any` over a fallible predicate: an any-of
reduction that short-circuits at the first `true`. -/
def parAny (f : α → Except ε Bool) : List α → Except ε Bool
  | [] => Except.ok false
  | x :: xs =>
    match f x with
    | Except.error e => Except.error e
    | Except.ok b => if b then Except.ok true else parAny f xs

/-- model of rayon's order-preserving parallel `filter_map` over a fallible
function. -/
def parFilterMap (f : α → Except ε (Option β)) : List α → Except ε (List β)
  | [] => Except.ok []
  | x :: xs =>
    match f x with
    | Except.error e => Except.error e
    | Except.ok r =>
      match parFilterMap f xs with
      | Except.error e => Except.error e
      | Except.ok rest =>
        Except.ok (match r with | some b => b :: rest | none => rest)

/-- translation of `fn list_binary(pkg: &str) -> Vec<String>`:
`qlist(pkg).into_par_iter().filter(is_elf_file).collect()`. -/
def list_binary (env : Env) (pkg : String) : Except String (List String) :=
  match qlist env pkg with
  | Except.error e => Except.error e
  | Except.ok files => parFilter (is_elf_file env) files

/-- translation of `fn have_binary(pkg: &str) -> bool`:
`qlist(pkg).into_par_iter().any(is_elf_file)`. -/
def have_binary (env : Env) (pkg : String) : Except String Bool :=
  match qlist env pkg with
  | Except.error e => Except.error e
  | Except.ok files => parAny (is_elf_file env) files

/-- translation of `fn print_time(sec: u64) -> String`. -/
def print_time (sec : Nat) : String :=
  let min := sec / 60
  if min ≠ 0 then
    let sec := sec % 60
    toString min ++ "′" ++ toString sec ++ "″"
  else
    toString sec ++ "s"

/-- one audit record `(pkg, list, time)` as produced by `main`'s
`filter_map` stage. -/
abbrev PkgRecord := String × List String × Nat

/-- translation of the first half of the closure inside `main`'s
`filter_map`: the `(list, have)` pair — the full list (with emptiness test)
when `-f` is set, the short-circuiting any-of otherwise. -/
def classifyPkg (env : Env) (opt : Arg) (pkg : String) :
    Except String (List String × Bool) :=
  if opt.file then
    match list_binary env pkg with
    | Except.error e => Except.error e
    | Except.ok l => Except.ok (l, !l.isEmpty)
  else
    match have_binary env pkg with
    | Except.error e => Except.error e
    | Except.ok h => Except.ok (([] : List String), h)

/-- translation of the closure inside `main`'s `filter_map`: classify one
package, sort its file list, and attach its duration when time is needed. -/
def processPkg (env : Env) (opt : Arg) (pkg : String) :
    Except String (Option PkgRecord) :=
  match classifyPkg env opt pkg with
  | Except.error e => Except.error e
  | Except.ok (list, have_) =>
    if have_ then
      match (if opt.time || opt.rebuild then qlop env pkg else Except.ok 0) with
      | Except.error e => Except.error e
      | Except.ok time =>
        Except.ok
          (some (pkg, list.insertionSort (fun a b => strLe a b = true), time))
    else
      Except.ok none

/-- translation of `main`'s parallel `filter_map ... collect` over the
enumerated packages. -/
def processPkgs (env : Env) (opt : Arg) (pkgs : List String) :
    Except String (List PkgRecord) :=
  parFilterMap (processPkg env opt) pkgs

/-- translation of `pkgs.sort_by_key(|p| p.2)` (std's stable sort, keyed by
duration). -/
def sortRecs (recs : List PkgRecord) : List PkgRecord :=
  recs.insertionSort (fun a b => a.2.2 ≤ b.2.2)

/-- records of `main` just before the printing loop: enumeration, per-package
classification, then the stable sort by duration when time was collected. -/
def reportRecs (env : Env) (opt : Arg) : Except String (List PkgRecord) :=
  match eix env opt.atom with
  | Except.error e => Except.error e
  | Except.ok names =>
    match processPkgs env opt names with
    | Except.error e => Except.error e
    | Except.ok recs =>
      Except.ok (if opt.time || opt.rebuild then sortRecs recs else recs)

/-- translation of `main`'s printing loop: one line per record (with the
rendered duration when time is needed), followed by the file list when `-f`
is set. -/
def renderReport (need_time file : Bool) (recs : List PkgRecord) :
    List String :=
  recs.flatMap (fun r =>
    (if need_time then [r.1 ++ ": " ++ print_time r.2.2] else [r.1]) ++
    (if file then r.2.1 else []))

/-- translation of the fast-tier condition `p.2 < 60` in `main`. -/
def smallCond (d : Nat) : Bool := decide (d < 60)

/-- translation of the medium-tier condition `p.2 >= 60 && p.2 < 15*60`. -/
def middleCond (d : Nat) : Bool := decide (60 ≤ d) && decide (d < 15 * 60)

/-- translation of the slow-tier condition `p.2 >= 15*60`. -/
def bigCond (d : Nat) : Bool := decide (15 * 60 ≤ d)

/-- translation of `main`'s rebuild section: the three `emerge` command lines
built from the order-preserving tier filters over the (sorted) records. -/
def rebuildLines (recs : List PkgRecord) : List String :=
  let small_pkgs := (recs.filter (fun p => smallCond p.2.2)).map (fun p => p.1)
  let middle_pkgs :=
    (recs.filter (fun p => middleCond p.2.2)).map (fun p => p.1)
  let big_pkgs := (recs.filter (fun p => bigCond p.2.2)).map (fun p => p.1)
  ["emerge -av1j16 -l20 --keep-going " ++ String.intercalate " " small_pkgs,
   "emerge -av1j2 -l20 --keep-going " ++ String.intercalate " " middle_pkgs,
   "emerge -av1 --keep-going " ++ String.intercalate " " big_pkgs]

/-- translation of `fn main()`: `Except.ok lines` means the run prints
exactly `lines` and exits with status 0; `Except.error` is a panic. -/
def mainRun (env : Env) (opt : Arg) : Except String (List String) :=
  match reportRecs env opt with
  | Except.error e => Except.error e
  | Except.ok recs =>
    if !opt.time && !opt.rebuild then Except.ok []
    else
      let rep := renderReport (opt.time || opt.rebuild) opt.file recs
      if !opt.rebuild then Except.ok rep
      else Except.ok (rep ++ rebuildLines recs)

/-- newline-terminated join: each line followed by one newline. -/
def joinNl (ls : List (List Char)) : List Char :=
  (ls.map (fun l => l ++ [Char.ofNat 10])).flatten

/-- a newline-terminated emission of `lines`, as a `String`. -/
def joinLines (lines : List String) : String :=
  String.mk (joinNl (lines.map String.data))

/-! ## Concrete environments used by the witnesses and counterexamples -/

/-- a successful tool invocation with the given stdout. -/
def demoOut (s : String) : ToolOut := ⟨true, some 0, s, ""⟩

/-- a demo system: two packages, `cat/a` (one ELF file, one text file,
100 s average build) and `cat/b` (one ELF file, 50 s average build). -/
def envDemo : Env where
  eixOut := fun _ => demoOut "cat/a\ncat/b\n"
  qlistOut := fun pkg =>
    if pkg = "cat/a" then demoOut "/usr/bin/a\n/usr/doc/a\n"
    else if pkg = "cat/b" then demoOut "/usr/bin/b\n"
    else demoOut ""
  qlopOut := fun pkg =>
    if pkg = "cat/a" then demoOut "5 100\n"
    else demoOut "3 50\n"
  readFile := fun p =>
    if p = "/usr/bin/a" then Except.ok [0x7f, 0x45, 0x4c, 0x46, 0, 1]
    else if p = "/usr/bin/b" then Except.ok [0x7f, 0x45, 0x4c, 0x46]
    else Except.ok [104, 105]

/-- the demo system with both packages reporting the same 50 s duration. -/
def envTie : Env := { envDemo with qlopOut := fun _ => demoOut "7 50\n" }

/-- decidable equality of `Except` results, so that witnesses can be checked
by `decide`. -/
instance {ε α : Type} [DecidableEq ε] [DecidableEq α] : DecidableEq (Except ε α) :=
  fun a b =>
    match a, b with
    | Except.error e1, Except.error e2 =>
      if h : e1 = e2 then isTrue (h ▸ rfl)
      else isFalse fun hh => h (Except.error.inj hh)
    | Except.error _, Except.ok _ => isFalse (fun hh => Except.noConfusion hh)
    | Except.ok _, Except.error _ => isFalse (fun hh => Except.noConfusion hh)
    | Except.ok a1, Except.ok a2 =>
      if h : a1 = a2 then isTrue (h ▸ rfl)
      else isFalse fun hh => h (Except.ok.inj hh)


/-! ## General lemmas about the combinators and the sorts -/

/-- when the full filter succeeds, the short-circuiting any-of succeeds and
agrees with the emptiness of the filtered list. -/
theorem parFilter_ok_parAny {α ε : Type} {f : α → Except ε Bool} :
    ∀ (xs : List α) (l : List α), parFilter f xs = Except.ok l →
      parAny f xs = Except.ok (!l.isEmpty) := by
  intro xs
  induction xs with
  | nil =>
    intro l h
    simp only [parFilter, Except.ok.injEq] at h
    subst h
    simp [parAny]
  | cons x xs ih =>
    intro l h
    simp only [parFilter] at h
    cases hfx : f x with
    | error e => rw [hfx] at h; exact absurd h (by simp)
    | ok b =>
      rw [hfx] at h
      cases hrest : parFilter f xs with
      | error e => rw [hrest] at h; exact absurd h (by simp)
      | ok rest =>
        rw [hrest] at h
        simp only [Except.ok.injEq] at h
        subst h
        cases b with
        | true => simp [parAny, hfx]
        | false => simpa [parAny, hfx] using ih rest hrest

/-- a record produced by `processPkg` carries the package it was built
from. -/
theorem processPkg_ok_some_name {env : Env} {opt : Arg} {pkg : String}
    {r : PkgRecord} (h : processPkg env opt pkg = Except.ok (some r)) :
    r.1 = pkg := by
  unfold processPkg at h
  cases hc : classifyPkg env opt pkg with
  | error e => rw [hc] at h; exact absurd h (by simp)
  | ok pair =>
    rw [hc] at h
    obtain ⟨list, have_⟩ := pair
    by_cases hh : have_ = true
    · subst hh
      simp only [if_true] at h
      cases hq : (if opt.time || opt.rebuild then qlop env pkg
          else Except.ok 0) with
      | error e => rw [hq] at h; exact absurd h (by simp)
      | ok time =>
        rw [hq] at h
        simp only [Except.ok.injEq, Option.some.injEq] at h
        rw [← h]
    · simp only [Bool.not_eq_true] at hh
      subst hh
      simp at h

/-- a record produced by `processPkg` has an `insertionSort`-sorted file
list. -/
theorem processPkg_ok_some_list {env : Env} {opt : Arg} {pkg : String}
    {r : PkgRecord} (h : processPkg env opt pkg = Except.ok (some r)) :
    ∃ l : List String, r.2.1 = l.insertionSort (fun a b => strLe a b = true) := by
  unfold processPkg at h
  cases hc : classifyPkg env opt pkg with
  | error e => rw [hc] at h; exact absurd h (by simp)
  | ok pair =>
    rw [hc] at h
    obtain ⟨list, have_⟩ := pair
    by_cases hh : have_ = true
    · subst hh
      simp only [if_true] at h
      cases hq : (if opt.time || opt.rebuild then qlop env pkg
          else Except.ok 0) with
      | error e => rw [hq] at h; exact absurd h (by simp)
      | ok time =>
        rw [hq] at h
        simp only [Except.ok.injEq, Option.some.injEq] at h
        exact ⟨list, by rw [← h]⟩
    · simp only [Bool.not_eq_true] at hh
      subst hh
      simp at h

/-- every record in the output of `processPkgs` is the (deterministic) result
of `processPkg` on its own package name. -/
theorem processPkgs_ok_mem {env : Env} {opt : Arg} :
    ∀ (names : List String) (recs : List PkgRecord),
      processPkgs env opt names = Except.ok recs →
      ∀ r ∈ recs, processPkg env opt r.1 = Except.ok (some r) := by
  intro names
  induction names with
  | nil =>
    intro recs h
    simp only [processPkgs, parFilterMap, Except.ok.injEq] at h
    subst h
    intro r hr
    simp at hr
  | cons pkg names ih =>
    intro recs h
    simp only [processPkgs, parFilterMap] at h
    cases hfx : processPkg env opt pkg with
    | error e => rw [hfx] at h; exact absurd h (by simp)
    | ok o =>
      rw [hfx] at h
      cases hrest : parFilterMap (processPkg env opt) names with
      | error e => rw [hrest] at h; exact absurd h (by simp)
      | ok rest =>
        rw [hrest] at h
        simp only [Except.ok.injEq] at h
        have ihrest := ih rest hrest
        cases o with
        | none =>
          subst h
          exact ihrest
        | some b =>
          subst h
          intro r hr
          rcases List.mem_cons.mp hr with hr | hr
          · subst hr
            rw [processPkg_ok_some_name hfx]
            exact hfx
          · exact ihrest r hr

/-- the package names output by `processPkgs` form an order-preserving
sublist of the enumerated names. -/
theorem processPkgs_names_sublist {env : Env} {opt : Arg} :
    ∀ (names : List String) (recs : List PkgRecord),
      processPkgs env opt names = Except.ok recs →
      List.Sublist (recs.map (fun r => r.1)) names := by
  intro names
  induction names with
  | nil =>
    intro recs h
    simp only [processPkgs, parFilterMap, Except.ok.injEq] at h
    subst h
    simp
  | cons pkg names ih =>
    intro recs h
    simp only [processPkgs, parFilterMap] at h
    cases hfx : processPkg env opt pkg with
    | error e => rw [hfx] at h; exact absurd h (by simp)
    | ok o =>
      rw [hfx] at h
      cases hrest : parFilterMap (processPkg env opt) names with
      | error e => rw [hrest] at h; exact absurd h (by simp)
      | ok rest =>
        rw [hrest] at h
        simp only [Except.ok.injEq] at h
        have ihrest := ih rest hrest
        cases o with
        | none =>
          subst h
          exact ihrest.cons pkg
        | some b =>
          subst h
          simp only [List.map_cons]
          rw [processPkg_ok_some_name hfx]
          exact ihrest.cons₂ pkg

/-! ## The two sort relations are total and transitive -/

/-- `charListLe` is total. -/
theorem charListLe_total : ∀ as bs : List Char,
    charListLe as bs = true ∨ charListLe bs as = true := by
  intro as
  induction as with
  | nil => intro bs; left; simp [charListLe]
  | cons a as ih =>
    intro bs
    cases bs with
    | nil => right; simp [charListLe]
    | cons b bs =>
      simp only [charListLe]
      by_cases h1 : a.toNat < b.toNat
      · left; simp [h1]
      · by_cases h2 : b.toNat < a.toNat
        · right; simp [h2]
        · simpa [h1, h2] using ih bs

/-- `charListLe` is transitive. -/
theorem charListLe_trans : ∀ as bs cs : List Char,
    charListLe as bs = true → charListLe bs cs = true →
    charListLe as cs = true := by
  intro as
  induction as with
  | nil => intro bs cs _ _; simp [charListLe]
  | cons a as ih =>
    intro bs cs h1 h2
    cases bs with
    | nil => simp [charListLe] at h1
    | cons b bs =>
      cases cs with
      | nil => simp [charListLe] at h2
      | cons c cs =>
        simp only [charListLe] at h1 h2 ⊢
        by_cases hab : a.toNat < b.toNat
        · by_cases hcb : c.toNat < b.toNat
          · by_cases hbc : b.toNat < c.toNat
            · omega
            · simp [hbc, hcb] at h2
          · have hac : a.toNat < c.toNat := by omega
            simp [hac]
        · by_cases hba : b.toNat < a.toNat
          · simp [hab, hba] at h1
          · simp only [if_neg hab, if_neg hba] at h1
            by_cases hbc : b.toNat < c.toNat
            · have hac : a.toNat < c.toNat := by omega
              simp [hac]
            · by_cases hcb : c.toNat < b.toNat
              · simp [hbc, hcb] at h2
              · simp only [if_neg hbc, if_neg hcb] at h2
                have hac : ¬a.toNat < c.toNat := by omega
                have hca : ¬c.toNat < a.toNat := by omega
                simp only [if_neg hac, if_neg hca]
                exact ih bs cs h1 h2

/-- `strLe` is total. -/
theorem strLe_total (a b : String) : strLe a b = true ∨ strLe b a = true :=
  charListLe_total a.data b.data

/-- `strLe` is transitive. -/
theorem strLe_trans (a b c : String) (h1 : strLe a b = true)
    (h2 : strLe b c = true) : strLe a c = true :=
  charListLe_trans a.data b.data c.data h1 h2

/-- the file-list sort used in `processPkg` produces a `strLe`-sorted list. -/
theorem insertionSort_strLe_sorted (l : List String) :
    (l.insertionSort (fun a b => strLe a b = true)).Sorted
      (fun a b => strLe a b = true) := by
  haveI : IsTotal String (fun a b => strLe a b = true) := ⟨strLe_total⟩
  haveI : IsTrans String (fun a b => strLe a b = true) :=
    ⟨fun a b c => strLe_trans a b c⟩
  exact List.sorted_insertionSort _ l

/-- the duration sort in `main` produces durations in non-decreasing
order. -/
theorem sortRecs_sorted (recs : List PkgRecord) :
    ((sortRecs recs).map (fun r => r.2.2)).Sorted (fun a b => a ≤ b) := by
  haveI : IsTotal PkgRecord (fun a b => a.2.2 ≤ b.2.2) :=
    ⟨fun a b => Nat.le_total _ _⟩
  haveI : IsTrans PkgRecord (fun a b => a.2.2 ≤ b.2.2) :=
    ⟨fun _ _ _ h1 h2 => Nat.le_trans h1 h2⟩
  have h := List.sorted_insertionSort (fun a b : PkgRecord => a.2.2 ≤ b.2.2) recs
  exact List.pairwise_map.mpr h

/-- the duration sort is stable: for each duration value, the subsequence of
records carrying that duration is unchanged by the sort. -/
theorem sortRecs_filter_key (recs : List PkgRecord) (d : Nat) :
    (sortRecs recs).filter (fun r => decide (r.2.2 = d)) =
      recs.filter (fun r => decide (r.2.2 = d)) := by
  haveI : IsTotal PkgRecord (fun a b => a.2.2 ≤ b.2.2) :=
    ⟨fun a b => Nat.le_total _ _⟩
  haveI : IsTrans PkgRecord (fun a b => a.2.2 ≤ b.2.2) :=
    ⟨fun _ _ _ h1 h2 => Nat.le_trans h1 h2⟩
  have hpair : (recs.filter (fun r => decide (r.2.2 = d))).Pairwise
      (fun a b => a.2.2 ≤ b.2.2) := by
    apply List.pairwise_of_forall_mem_list
    intro x hx y hy
    have hx' := (List.mem_filter.mp hx).2
    have hy' := (List.mem_filter.mp hy).2
    have hx'' : x.2.2 = d := by simpa using hx'
    have hy'' : y.2.2 = d := by simpa using hy'
    omega
  have hsub : List.Sublist (recs.filter (fun r => decide (r.2.2 = d)))
      (sortRecs recs) :=
    List.sublist_insertionSort hpair (List.filter_sublist recs)
  have hidem : (recs.filter (fun r => decide (r.2.2 = d))).filter
      (fun r => decide (r.2.2 = d)) = recs.filter (fun r => decide (r.2.2 = d)) :=
    List.filter_eq_self.mpr (fun a ha => (List.mem_filter.mp ha).2)
  have hsub2 : List.Sublist (recs.filter (fun r => decide (r.2.2 = d)))
      ((sortRecs recs).filter (fun r => decide (r.2.2 = d))) := by
    have h2 := hsub.filter (fun r => decide (r.2.2 = d))
    rwa [hidem] at h2
  have hperm : List.Perm ((sortRecs recs).filter (fun r => decide (r.2.2 = d)))
      (recs.filter (fun r => decide (r.2.2 = d))) :=
    (List.perm_insertionSort _ recs).filter _
  exact (hsub2.eq_of_length hperm.length_eq.symm).symm

/-! ## Round trip between newline-joined lines and `splitTerminator` -/

/-- splitting consumes a newline-free segment up to the next newline. -/
theorem splitLinesAux_append : ∀ (l : List Char), Char.ofNat 10 ∉ l →
    ∀ (rest cur : List Char),
      splitLinesAux (l ++ Char.ofNat 10 :: rest) cur =
        (cur.reverse ++ l) :: splitLinesAux rest [] := by
  intro l
  induction l with
  | nil =>
    intro _ rest cur
    simp [splitLinesAux, show Char.ofNat 10 = '\n' from rfl]
  | cons c l ih =>
    intro hl rest cur
    have hc : ¬(c = '\n') := by
      intro h
      exact hl (by simp [h, show Char.ofNat 10 = '\n' from rfl])
    have hl' : Char.ofNat 10 ∉ l := fun h => hl (List.mem_cons_of_mem _ h)
    simp only [List.cons_append, splitLinesAux, if_neg hc]
    show splitLinesAux (l ++ Char.ofNat 10 :: rest) (c :: cur) =
      (cur.reverse ++ c :: l) :: splitLinesAux rest []
    rw [ih hl' rest (c :: cur)]
    simp

/-- splitting a newline-terminated join recovers the lines plus one trailing
empty segment. -/
theorem splitLinesAux_joinNl : ∀ (ls : List (List Char)),
    (∀ l ∈ ls, Char.ofNat 10 ∉ l) →
    splitLinesAux (joinNl ls) [] = ls ++ [[]] := by
  intro ls
  induction ls with
  | nil => intro _; simp [joinNl, splitLinesAux]
  | cons l ls ih =>
    intro h
    have hl : Char.ofNat 10 ∉ l := h l (List.mem_cons_self _ _)
    have hls : ∀ x ∈ ls, Char.ofNat 10 ∉ x :=
      fun x hx => h x (List.mem_cons_of_mem _ hx)
    have hjoin : joinNl (l :: ls) = l ++ Char.ofNat 10 :: joinNl ls := by
      simp [joinNl]
    rw [hjoin, splitLinesAux_append l hl (joinNl ls) [], ih hls]
    simp

/-- `splitTerminatorAux` undoes a newline-terminated join exactly. -/
theorem splitTerminatorAux_joinNl (ls : List (List Char))
    (h : ∀ l ∈ ls, Char.ofNat 10 ∉ l) :
    splitTerminatorAux (joinNl ls) = ls := by
  unfold splitTerminatorAux
  rw [splitLinesAux_joinNl ls h]
  simp [List.getLast?_concat, List.dropLast_concat]

/-- `splitTerminator` recovers newline-free lines from their
newline-terminated emission. -/
theorem splitTerminator_joinLines (lines : List String)
    (h : ∀ l ∈ lines, Char.ofNat 10 ∉ l.data) :
    splitTerminator (joinLines lines) = lines := by
  unfold splitTerminator joinLines
  have hd : (String.mk (joinNl (lines.map String.data))).data =
      joinNl (lines.map String.data) := rfl
  rw [hd, splitTerminatorAux_joinNl]
  · rw [List.map_map]
    have hcomp : (fun l => String.mk l) ∘ String.data = id :=
      funext fun _ => rfl
    rw [hcomp, List.map_id]
  · intro l hl
    rcases List.mem_map.mp hl with ⟨s, hs, rfl⟩
    exact h s hs


/-! ## Classification helper lemmas -/

/-- when the full `list_binary` path succeeds, the short-circuiting
`have_binary` path succeeds and agrees with non-emptiness. -/
theorem list_binary_ok_have {env : Env} {pkg : String} {l : List String}
    (h : list_binary env pkg = Except.ok l) :
    have_binary env pkg = Except.ok (!l.isEmpty) := by
  unfold list_binary at h
  cases hq : qlist env pkg with
  | error e => rw [hq] at h; exact absurd h (by simp)
  | ok files =>
    rw [hq] at h
    unfold have_binary
    rw [hq]
    exact parFilter_ok_parAny files l h

/-- the `(list, have)` pair computed in `main`'s closure, in terms of
`list_binary`, for either setting of `-f`. -/
theorem classifyPkg_ok {env : Env} {pkg : String} {l : List String}
    (opt : Arg) (h : list_binary env pkg = Except.ok l) :
    classifyPkg env opt pkg =
      Except.ok ((if opt.file then l else []), !l.isEmpty) := by
  unfold classifyPkg
  by_cases hf : opt.file = true
  · rw [if_pos hf, if_pos hf, h]
  · rw [if_neg hf, if_neg hf, list_binary_ok_have h]

/-- a package whose binary list is empty is dropped by `main`'s
`filter_map`. -/
theorem processPkg_none_of_list_empty {env : Env} {pkg : String}
    (h : list_binary env pkg = Except.ok []) (opt : Arg) :
    processPkg env opt pkg = Except.ok none := by
  unfold processPkg
  rw [classifyPkg_ok opt h]
  simp

/-- a tier filter then an equal-duration filter is just the equal-duration
filter, whenever the duration lies in the tier. -/
theorem filter_tier_filter_key (l : List PkgRecord) (cond : Nat → Bool)
    (d : Nat) (hd : cond d = true) :
    (l.filter (fun p => cond p.2.2)).filter (fun r => decide (r.2.2 = d)) =
      l.filter (fun r => decide (r.2.2 = d)) := by
  rw [List.filter_filter]
  apply List.filter_congr
  intro x _
  by_cases hxd : x.2.2 = d
  · simp [hxd, hd]
  · simp [hxd]

/-- the three duration conditions are mutually exclusive and exhaustive. -/
theorem tierCond_trichotomy (d : Nat) :
    (smallCond d = true ∧ middleCond d = false ∧ bigCond d = false) ∨
    (smallCond d = false ∧ middleCond d = true ∧ bigCond d = false) ∨
    (smallCond d = false ∧ middleCond d = false ∧ bigCond d = true) := by
  simp only [smallCond, middleCond, bigCond, Bool.and_eq_true,
    decide_eq_true_eq, decide_eq_false_iff_not, Bool.and_eq_false_iff]
  omega

/-- the three tier filters form a permutation of the input records
(each record lands in exactly one tier). -/
theorem tier_partition_perm : ∀ recs : List PkgRecord,
    List.Perm (recs.filter (fun p => smallCond p.2.2) ++
      (recs.filter (fun p => middleCond p.2.2) ++
       recs.filter (fun p => bigCond p.2.2))) recs := by
  intro recs
  induction recs with
  | nil => simp
  | cons r recs ih =>
    rcases tierCond_trichotomy r.2.2 with ⟨h1, h2, h3⟩ | ⟨h1, h2, h3⟩ | ⟨h1, h2, h3⟩
    · simp only [List.filter_cons, h1, h2, h3, if_true, if_false,
        List.cons_append]
      exact ih.cons r
    · simp only [List.filter_cons, h1, h2, h3, if_true, if_false,
        List.cons_append]
      exact List.Perm.trans List.perm_middle (ih.cons r)
    · simp only [List.filter_cons, h1, h2, h3, if_true, if_false,
        List.cons_append]
      have hMB : List.Perm
          (recs.filter (fun p => middleCond p.2.2) ++
            r :: recs.filter (fun p => bigCond p.2.2))
          (r :: (recs.filter (fun p => middleCond p.2.2) ++
            recs.filter (fun p => bigCond p.2.2))) := List.perm_middle
      have hS := List.Perm.append_left (recs.filter (fun p => smallCond p.2.2)) hMB
      exact hS.trans (List.Perm.trans List.perm_middle (ih.cons r))

/-! ## Claim theorems -/

/-- C1: for every file whose contents are readable, `is_elf_file` returns
`true` exactly when the first 4 bytes equal the ELF magic 0x7F 'E' 'L' 'F';
a file holding fewer than 4 bytes yields `false` (not an error); and the
result depends only on the first 4 bytes, independent of any content beyond
them. -/
theorem C1_is_elf_file_spec (env : Env) (path : String) (buf : List Nat)
    (h : env.readFile path = Except.ok buf) :
    (is_elf_file env path = Except.ok true ↔ buf.take 4 = ELF_HEADER) ∧
    (buf.length < 4 → is_elf_file env path = Except.ok false) ∧
    (∀ (env2 : Env) (path2 : String) (buf2 : List Nat),
      env2.readFile path2 = Except.ok buf2 → buf2.take 4 = buf.take 4 →
      is_elf_file env2 path2 = is_elf_file env path) := by
  have key : ∀ (e : Env) (p : String) (b : List Nat),
      e.readFile p = Except.ok b →
      is_elf_file e p =
        Except.ok (if b.length < 4 then false
          else decide (b.take 4 = ELF_HEADER)) := by
    intro e p b hb
    unfold is_elf_file
    rw [hb]
    show (if b.length < 4 then Except.ok false
        else Except.ok (decide (List.take 4 b = ELF_HEADER))) = _
    by_cases hl : b.length < 4
    · rw [if_pos hl, if_pos hl]
    · rw [if_neg hl, if_neg hl]
  refine ⟨?_, ?_, ?_⟩
  · rw [key env path buf h]
    constructor
    · intro hh
      by_cases hl : buf.length < 4
      · rw [if_pos hl] at hh
        exact absurd (Except.ok.inj hh) (by simp)
      · rw [if_neg hl] at hh
        simpa using Except.ok.inj hh
    · intro hh
      have hlen : ¬buf.length < 4 := by
        have hlt := congrArg List.length hh
        rw [List.length_take] at hlt
        simp only [ELF_HEADER, List.length_cons, List.length_nil] at hlt
        omega
      rw [if_neg hlen]
      simp [hh]
  · intro hl
    rw [key env path buf h, if_pos hl]
  · intro env2 path2 buf2 h2 htake
    rw [key env path buf h, key env2 path2 buf2 h2]
    have hlen : buf2.length < 4 ↔ buf.length < 4 := by
      have hlt := congrArg List.length htake
      rw [List.length_take, List.length_take] at hlt
      omega
    by_cases hl : buf.length < 4
    · rw [if_pos hl, if_pos (hlen.mpr hl)]
    · rw [if_neg hl, if_neg (fun hh => hl (hlen.mp hh)), htake]

/-- witness for C1: a concrete 4-byte ELF file classifies as binary. -/
theorem C1_witness :
    envDemo.readFile "/usr/bin/b" = Except.ok [0x7f, 0x45, 0x4c, 0x46] ∧
    is_elf_file envDemo "/usr/bin/b" = Except.ok true :=
  ⟨by decide,
    (C1_is_elf_file_spec envDemo "/usr/bin/b" [0x7f, 0x45, 0x4c, 0x46]
      (by decide)).1.mpr (by decide)⟩

/-- C2: for every duration, exactly one of the three tier conditions of the
rebuild planner holds, with the half-open boundaries [0,60), [60,900),
[900,∞); in particular 59 s is fast, 60 s and 899 s are medium, and 900 s is
slow. -/
theorem C2_tier_partition :
    (∀ d : Nat,
      (smallCond d = true ∧ middleCond d = false ∧ bigCond d = false) ∨
      (smallCond d = false ∧ middleCond d = true ∧ bigCond d = false) ∨
      (smallCond d = false ∧ middleCond d = false ∧ bigCond d = true)) ∧
    smallCond 59 = true ∧ middleCond 60 = true ∧ middleCond 899 = true ∧
    bigCond 900 = true :=
  ⟨tierCond_trichotomy, by decide, by decide, by decide, by decide⟩

/-- C7: `print_time` renders minutes and seconds as
`{minutes}′{seconds}″` for durations of at least 60 seconds and as
`{seconds}s` below 60 seconds; in particular 0 ↦ "0s", 59 ↦ "59s",
60 ↦ "1′0″" and 125 ↦ "2′5″". -/
theorem C7_print_time_spec :
    (∀ sec : Nat,
      (60 ≤ sec →
        print_time sec =
          toString (sec / 60) ++ "′" ++ toString (sec % 60) ++ "″") ∧
      (sec < 60 → print_time sec = toString sec ++ "s")) ∧
    print_time 0 = "0s" ∧ print_time 59 = "59s" ∧
    print_time 60 = "1′0″" ∧ print_time 125 = "2′5″" := by
  refine ⟨?_, by decide, by decide, by decide, by decide⟩
  intro sec
  constructor
  · intro h
    have hne : sec / 60 ≠ 0 := by
      have h1 : 1 ≤ sec / 60 := (Nat.one_le_div_iff (by omega)).mpr h
      omega
    simp [print_time, hne]
  · intro h
    have hz : sec / 60 = 0 := Nat.div_eq_of_lt h
    simp [print_time, hz]

/-- witness for C7: the theorem applied at 125 seconds. -/
theorem C7_witness :
    print_time 125 = toString (125 / 60) ++ "′" ++ toString (125 % 60) ++ "″" :=
  (C7_print_time_spec.1 125).1 (by decide)

/-- C5: `qlop` parses the second whitespace-delimited token of the tool's
stdout as an unsigned 64-bit integer of seconds; a missing second token
yields 0; a non-zero exit is fatal; a present-but-unparsable second token is
fatal. -/
theorem C5_qlop_spec (env : Env) (pkg : String) :
    ((env.qlopOut pkg).success = false →
      qlop env pkg = Except.error ("qlop " ++ pkg ++ " failed!, stdout:\n" ++
        (env.qlopOut pkg).stdout ++ "\nstderr:\n" ++ (env.qlopOut pkg).stderr)) ∧
    ((env.qlopOut pkg).success = true →
      (splitWhitespace (env.qlopOut pkg).stdout)[1]? = none →
      qlop env pkg = Except.ok 0) ∧
    (∀ tok : String, (env.qlopOut pkg).success = true →
      (splitWhitespace (env.qlopOut pkg).stdout)[1]? = some tok →
      (∀ n : Nat, parseU64 tok = some n → qlop env pkg = Except.ok n) ∧
      (parseU64 tok = none →
        qlop env pkg =
          Except.error ("invalid digit found in string: " ++ tok))) := by
  refine ⟨?_, ?_, ?_⟩
  · intro h
    simp [qlop, h]
  · intro h hn
    simp only [qlop, h, hn, Bool.not_true, Bool.false_eq_true, if_false,
      Option.getD_none]
    rfl
  · intro tok h htok
    constructor
    · intro n hparse
      simp [qlop, h, htok, hparse]
    · intro hparse
      simp [qlop, h, htok, hparse]

/-- witness for C5: on the demo system `qlop` for `cat/a` reads the second
token `100`. -/
theorem C5_witness : qlop envDemo "cat/a" = Except.ok 100 :=
  ((C5_qlop_spec envDemo "cat/a").2.2 "100" (by decide) (by decide)).1 100
    (by decide)

/-- C6: `eix` treats exit code 1 as a benign empty enumeration; any other
unsuccessful exit is fatal with an abort message that carries the captured
stdout and stderr; on success the result is the newline-delimited
identifiers in emission order (splitting the newline-terminated emission of
any newline-free lines recovers exactly those lines, in order). -/
theorem C6_eix_spec (env : Env) (input : Option String) :
    ((env.eixOut input).success = false → (env.eixOut input).code = some 1 →
      eix env input = Except.ok []) ∧
    ((env.eixOut input).success = false → (env.eixOut input).code ≠ some 1 →
      eix env input = Except.error ("eix failed!, stdout:\n" ++
        (env.eixOut input).stdout ++ "\nstderr:\n" ++
        (env.eixOut input).stderr) ∧
      List.IsInfix (env.eixOut input).stdout.data
        ("eix failed!, stdout:\n" ++ (env.eixOut input).stdout ++
          "\nstderr:\n" ++ (env.eixOut input).stderr).data ∧
      List.IsInfix (env.eixOut input).stderr.data
        ("eix failed!, stdout:\n" ++ (env.eixOut input).stdout ++
          "\nstderr:\n" ++ (env.eixOut input).stderr).data) ∧
    ((env.eixOut input).success = true →
      eix env input = Except.ok (splitTerminator (env.eixOut input).stdout)) ∧
    (∀ lines : List String, (env.eixOut input).success = true →
      (∀ l ∈ lines, Char.ofNat 10 ∉ l.data) →
      (env.eixOut input).stdout = joinLines lines →
      eix env input = Except.ok lines) := by
  refine ⟨?_, ?_, ?_, ?_⟩
  · intro h hc
    simp [eix, h, hc]
  · intro h hc
    refine ⟨by simp [eix, h, hc], ?_, ?_⟩
    · refine ⟨"eix failed!, stdout:\n".data,
        ("\nstderr:\n" ++ (env.eixOut input).stderr).data, ?_⟩
      simp [String.data_append]
    · refine ⟨("eix failed!, stdout:\n" ++ (env.eixOut input).stdout ++
        "\nstderr:\n").data, [], ?_⟩
      simp [String.data_append]
  · intro h
    simp [eix, h]
  · intro lines h hnl hstdout
    have hsplit : splitTerminator (env.eixOut input).stdout = lines := by
      rw [hstdout]
      exact splitTerminator_joinLines lines hnl
    simp [eix, h, hsplit]

/-- witness for C6: the demo enumeration is recovered line by line. -/
theorem C6_witness : eix envDemo none = Except.ok ["cat/a", "cat/b"] :=
  (C6_eix_spec envDemo none).2.2.2 ["cat/a", "cat/b"] (by decide) (by decide)
    (by decide)

/-- C3: `have_binary` agrees with non-emptiness of `list_binary` (the
any-of fast path and the full-list path decide membership identically);
under either path, and for any flag combination, a package enters the
record set exactly when its binary list is non-empty; a package owning
zero files has `have_binary` false, an empty `list_binary`, and is excluded
from the report. -/
theorem C3_membership_spec (env : Env) (pkg : String) :
    (∀ l : List String, list_binary env pkg = Except.ok l →
      have_binary env pkg = Except.ok (!l.isEmpty)) ∧
    (∀ (opt : Arg) (r : Option PkgRecord) (l : List String),
      list_binary env pkg = Except.ok l →
      processPkg env opt pkg = Except.ok r → r.isSome = !l.isEmpty) ∧
    ((env.qlistOut pkg).success = true → (env.qlistOut pkg).stdout = "" →
      have_binary env pkg = Except.ok false ∧
      list_binary env pkg = Except.ok [] ∧
      ∀ opt : Arg, processPkg env opt pkg = Except.ok none) ∧
    (∀ (opt : Arg) (names : List String) (recs : List PkgRecord),
      processPkg env opt pkg = Except.ok none →
      processPkgs env opt names = Except.ok recs →
      ∀ r ∈ recs, r.1 ≠ pkg) := by
  refine ⟨?_, ?_, ?_, ?_⟩
  · intro l hl
    exact list_binary_ok_have hl
  · intro opt r l hl hp
    have hc := classifyPkg_ok opt hl
    unfold processPkg at hp
    rw [hc] at hp
    by_cases he : l.isEmpty = true
    · simp only [he, Bool.not_true, Bool.false_eq_true, if_false,
        Except.ok.injEq] at hp
      rw [← hp, he]
      rfl
    · have he' : l.isEmpty = false := by simpa using he
      simp only [he', Bool.not_false, if_true] at hp
      cases hq : (if opt.time || opt.rebuild then qlop env pkg
          else Except.ok 0) with
      | error e => rw [hq] at hp; exact absurd hp (by simp)
      | ok time =>
        rw [hq] at hp
        simp only [Except.ok.injEq] at hp
        rw [← hp, he']
        rfl
  · intro hsu hso
    have hq : qlist env pkg = Except.ok [] := by
      simp [qlist, hsu, hso, splitTerminator, splitTerminatorAux,
        splitLinesAux]
    have hlb : list_binary env pkg = Except.ok [] := by
      unfold list_binary
      rw [hq]
      rfl
    refine ⟨?_, hlb, processPkg_none_of_list_empty hlb⟩
    have hhb := list_binary_ok_have hlb
    simpa using hhb
  · intro opt names recs hnone hrecs r hr heq
    have h2 := processPkgs_ok_mem names recs hrecs r hr
    rw [heq, hnone] at h2
    exact absurd (Except.ok.inj h2) (by simp)

/-- witness for C3: the demo package with an empty file list is classified
out of the report. -/
theorem C3_witness :
    have_binary envDemo "sys-apps/empty" = Except.ok false ∧
    list_binary envDemo "sys-apps/empty" = Except.ok [] ∧
    processPkg envDemo ⟨false, true, false, none⟩ "sys-apps/empty" =
      Except.ok none := by
  have h := (C3_membership_spec envDemo "sys-apps/empty").2.2.1 (by decide)
    (by decide)
  exact ⟨h.1, h.2.1, h.2.2 ⟨false, true, false, none⟩⟩

/-- C9: with neither `-t` nor `-r`, the run is exactly the classification
pass: it aborts precisely when enumeration or classification aborts (with
the same message), prints nothing, and exits 0 otherwise. -/
theorem C9_dry_run (env : Env) (opt : Arg) (ht : opt.time = false)
    (hr : opt.rebuild = false) :
    mainRun env opt =
      Except.map (fun _ => ([] : List String)) (reportRecs env opt) ∧
    (∀ e, reportRecs env opt = Except.error e →
      mainRun env opt = Except.error e) ∧
    (∀ recs, reportRecs env opt = Except.ok recs →
      mainRun env opt = Except.ok []) := by
  have hmain : mainRun env opt =
      Except.map (fun _ => ([] : List String)) (reportRecs env opt) := by
    unfold mainRun
    cases h : reportRecs env opt with
    | error e => rfl
    | ok recs => simp [ht, hr, Except.map]
  refine ⟨hmain, ?_, ?_⟩
  · intro e he
    rw [hmain, he]
    rfl
  · intro recs hrecs
    rw [hmain, hrecs]
    rfl

/-- witness for C9: the demo run with only `-f` prints nothing and
exits 0. -/
theorem C9_witness :
    mainRun envDemo ⟨true, false, false, none⟩ = Except.ok [] :=
  (C9_dry_run envDemo ⟨true, false, false, none⟩ rfl rfl).2.2
    [("cat/a", ["/usr/bin/a"], 0), ("cat/b", ["/usr/bin/b"], 0)] (by decide)

/-- C10: the membership filter preserves enumeration order (the record
names form a sublist of the enumerated names), and the duration sort is
stable: for every duration value, the equal-duration subsequence — in the
report and within each rebuild tier — is exactly the enumeration-order
subsequence. -/
theorem C10_sort_stable (env : Env) (opt : Arg) (names : List String)
    (recs : List PkgRecord)
    (h : processPkgs env opt names = Except.ok recs) :
    List.Sublist (recs.map (fun r => r.1)) names ∧
    (∀ d : Nat, (sortRecs recs).filter (fun r => decide (r.2.2 = d)) =
      recs.filter (fun r => decide (r.2.2 = d))) ∧
    (∀ d : Nat, smallCond d = true →
      ((sortRecs recs).filter (fun p => smallCond p.2.2)).filter
          (fun r => decide (r.2.2 = d)) =
        recs.filter (fun r => decide (r.2.2 = d))) ∧
    (∀ d : Nat, middleCond d = true →
      ((sortRecs recs).filter (fun p => middleCond p.2.2)).filter
          (fun r => decide (r.2.2 = d)) =
        recs.filter (fun r => decide (r.2.2 = d))) ∧
    (∀ d : Nat, bigCond d = true →
      ((sortRecs recs).filter (fun p => bigCond p.2.2)).filter
          (fun r => decide (r.2.2 = d)) =
        recs.filter (fun r => decide (r.2.2 = d))) := by
  refine ⟨processPkgs_names_sublist names recs h, sortRecs_filter_key recs,
    ?_, ?_, ?_⟩
  · intro d hd
    rw [filter_tier_filter_key (sortRecs recs) smallCond d hd,
      sortRecs_filter_key recs d]
  · intro d hd
    rw [filter_tier_filter_key (sortRecs recs) middleCond d hd,
      sortRecs_filter_key recs d]
  · intro d hd
    rw [filter_tier_filter_key (sortRecs recs) bigCond d hd,
      sortRecs_filter_key recs d]

/-- witness for C10: two demo packages tied at 50 s keep their enumeration
order through the sort. -/
theorem C10_witness :
    (sortRecs [(("cat/a" : String), ([] : List String), (50 : Nat)),
        ("cat/b", [], 50)]).filter (fun r => decide (r.2.2 = 50)) =
      [(("cat/a" : String), ([] : List String), (50 : Nat)),
        ("cat/b", [], 50)].filter (fun r => decide (r.2.2 = 50)) :=
  (C10_sort_stable envTie ⟨false, true, false, none⟩ ["cat/a", "cat/b"]
    [("cat/a", [], 50), ("cat/b", [], 50)] (by decide)).2.1 50

/-- C8: the rebuild planner always renders exactly three command lines with
the literal `emerge` invocations, one per tier, even when a tier is empty
(zero package arguments after the trailing space); each tier is the
order-preserving filter of the input records (a stable partition: each
tier's names form a sublist of the input names, and together the tiers are
a permutation of the input); with `-r` set the run appends exactly these
three lines after the report. -/
theorem C8_rebuild_plan (recs : List PkgRecord) :
    (rebuildLines recs).length = 3 ∧
    rebuildLines recs =
      ["emerge -av1j16 -l20 --keep-going " ++ String.intercalate " "
          ((recs.filter (fun p => smallCond p.2.2)).map (fun p => p.1)),
       "emerge -av1j2 -l20 --keep-going " ++ String.intercalate " "
          ((recs.filter (fun p => middleCond p.2.2)).map (fun p => p.1)),
       "emerge -av1 --keep-going " ++ String.intercalate " "
          ((recs.filter (fun p => bigCond p.2.2)).map (fun p => p.1))] ∧
    List.Sublist ((recs.filter (fun p => smallCond p.2.2)).map (fun p => p.1))
      (recs.map (fun p => p.1)) ∧
    List.Sublist ((recs.filter (fun p => middleCond p.2.2)).map (fun p => p.1))
      (recs.map (fun p => p.1)) ∧
    List.Sublist ((recs.filter (fun p => bigCond p.2.2)).map (fun p => p.1))
      (recs.map (fun p => p.1)) ∧
    List.Perm (recs.filter (fun p => smallCond p.2.2) ++
      (recs.filter (fun p => middleCond p.2.2) ++
       recs.filter (fun p => bigCond p.2.2))) recs ∧
    (∀ (env : Env) (opt : Arg), opt.rebuild = true →
      ∀ recs2 : List PkgRecord, reportRecs env opt = Except.ok recs2 →
        mainRun env opt = Except.ok
          (renderReport (opt.time || opt.rebuild) opt.file recs2 ++
            rebuildLines recs2)) := by
  refine ⟨rfl, rfl, (List.filter_sublist recs).map _,
    (List.filter_sublist recs).map _, (List.filter_sublist recs).map _,
    tier_partition_perm recs, ?_⟩
  intro env opt hr recs2 hrep
  unfold mainRun
  rw [hrep]
  simp [hr]

/-- witness for C8: the demo run with `-r` alone; the slow tier is empty
but its command line is still emitted. -/
theorem C8_witness :
    mainRun envDemo ⟨false, false, true, none⟩ =
      Except.ok ["cat/b: 50s", "cat/a: 1′40″",
        "emerge -av1j16 -l20 --keep-going cat/b",
        "emerge -av1j2 -l20 --keep-going cat/a",
        "emerge -av1 --keep-going "] := by
  have h := (C8_rebuild_plan [("cat/b", [], 50), ("cat/a", [], 100)]).2.2.2.2.2.2
    envDemo ⟨false, false, true, none⟩ rfl
    [("cat/b", [], 50), ("cat/a", [], 100)] (by decide)
  rw [h]
  decide

/-- C4 (amended): every printed file list is sorted in the byte
lexicographic string order; whenever time is collected (`-t` or `-r`), the
report's packages appear in non-decreasing duration order; and with neither
`-t` nor `-r` (in particular with `-f` alone) nothing is printed at all. -/
theorem C4_report_order_amended (env : Env) (opt : Arg)
    (recs : List PkgRecord) (h : reportRecs env opt = Except.ok recs) :
    (∀ r ∈ recs, r.2.1.Sorted (fun a b => strLe a b = true)) ∧
    ((opt.time || opt.rebuild) = true →
      (recs.map (fun r => r.2.2)).Sorted (fun a b => a ≤ b)) ∧
    (opt.time = false → opt.rebuild = false →
      mainRun env opt = Except.ok []) := by
  unfold reportRecs at h
  cases he : eix env opt.atom with
  | error e => rw [he] at h; exact absurd h (by simp)
  | ok names =>
    rw [he] at h
    dsimp only at h
    cases hp : processPkgs env opt names with
    | error e => rw [hp] at h; exact absurd h (by simp)
    | ok recs0 =>
      rw [hp] at h
      dsimp only at h
      simp only [Except.ok.injEq] at h
      refine ⟨?_, ?_, ?_⟩
      · intro r hr
        rw [← h] at hr
        have hr0 : r ∈ recs0 := by
          by_cases hn : (opt.time || opt.rebuild) = true
          · rw [if_pos hn] at hr
            simpa [sortRecs, List.mem_insertionSort] using hr
          · rwa [if_neg hn] at hr
        have hmem := processPkgs_ok_mem names recs0 hp r hr0
        rcases processPkg_ok_some_list hmem with ⟨l, hl⟩
        rw [hl]
        exact insertionSort_strLe_sorted l
      · intro hn
        rw [← h, if_pos hn]
        exact sortRecs_sorted recs0
      · intro ht hrb
        unfold mainRun reportRecs
        rw [he]
        dsimp only
        rw [hp]
        dsimp only
        simp [ht, hrb]

/-- witness for C4 (amended): the demo report with `-f -t` is sorted by
duration. -/
theorem C4_witness :
    (([("cat/b", ["/usr/bin/b"], 50), ("cat/a", ["/usr/bin/a"], 100)] :
        List PkgRecord).map (fun r => r.2.2)).Sorted (fun a b => a ≤ b) :=
  (C4_report_order_amended envDemo ⟨true, true, false, none⟩
    [("cat/b", ["/usr/bin/b"], 50), ("cat/a", ["/usr/bin/a"], 100)]
    (by decide)).2.1 rfl

/-- counterexample for C4 as frozen: with `-f` set and `-t` not set (here
with `-r` set, the only way any output is produced), the demo run prints
`cat/b` before `cat/a` although enumeration order is `cat/a`, `cat/b` —
packages do not appear in enumeration order. -/
theorem C4_counterexample :
    (Arg.file ⟨true, false, true, none⟩ = true ∧
     Arg.time ⟨true, false, true, none⟩ = false) ∧
    eix envDemo none = Except.ok ["cat/a", "cat/b"] ∧
    (reportRecs envDemo ⟨true, false, true, none⟩).map
        (fun recs => recs.map (fun r => r.1)) =
      Except.ok ["cat/b", "cat/a"] ∧
    mainRun envDemo ⟨true, false, true, none⟩ =
      Except.ok ["cat/b: 50s", "/usr/bin/b", "cat/a: 1′40″", "/usr/bin/a",
        "emerge -av1j16 -l20 --keep-going cat/b",
        "emerge -av1j2 -l20 --keep-going cat/a",
        "emerge -av1 --keep-going "] ∧
    (["cat/b", "cat/a"] : List String) ≠ ["cat/a", "cat/b"] :=
  ⟨⟨rfl, rfl⟩, by decide, by decide, by decide, by decide⟩
